import Mathlib

/-!
Shallow embedding of the retrieval core of this repository
(`rag_index.py`, class `RAGIndex`), together with theorems settling the
frozen claims about its specification.

Modelling notes, recorded once here and referenced below:

* The Python class holds `self.documents` (a list of strings) and the pair
  `self.vectorizer` / `self.tfidf_matrix` fitted by `setup`.  The fitted
  pair is modelled by the corpus it was fitted on (`fitted : Option (List
  String)`), `none` standing for the un-fitted state
  (`self.tfidf_matrix = None`).

* `setup` reads a JSON file.  File existence and JSON decoding are outside
  the claims; the embedding takes the decoded value directly (`JsonData`:
  either a list of records or a single record, each record with optional
  `transcript` / `summary` / `notes` fields that are strings or, for
  notes, possibly a list of strings, mirroring what `app.py` writes).

* `TfidfVectorizer` (scikit-learn, all defaults): tokens are maximal runs
  of word characters of length at least 2 (the default `token_pattern`
  matches `\b\w\w+\b`), lowercased (ASCII model of `\w` and of
  lowercasing, which covers every input appearing in the claims).
  `fit_transform` raises `ValueError` ("empty vocabulary") exactly when
  no document yields any token, in particular on an empty corpus.

* Term weights are tf-idf values `count * idf N df` where the smoothed
  idf of scikit-learn is `ln((1+N)/(1+df)) + 1`, a transcendental number.
  The embedding keeps the weight formula but abstracts the idf table as
  an explicit argument `idf : ℕ → ℕ → ℚ` threaded through every ranking
  function; the real table is positive everywhere.  The concrete runs
  proved below do not depend on the table beyond that (the lemma
  `simsB_any_idf` holds for every table, and the remaining concrete
  similarities are 0 or 1 by proportionality), so instantiating the
  closed statements at the table `idf0` is faithful.

* `cosine_similarity` rescales each row to unit length, leaving zero rows
  untouched, and takes dot products; so a zero-magnitude vector yields
  similarity 0 and the value is otherwise `dot/(|q|*|d|)`.  Since the
  weights of the library are nonnegative, cosine values lie in `[0, 1]`
  and comparing them is equivalent to comparing their squares, which are
  rational.  The embedding therefore represents each similarity by its
  square (`simSq`), an order- and tie-faithful representation that keeps
  the whole model computable over `ℚ`.

* `similarities.argsort()` is modelled as sorting the indices by the key
  `(value, index)` lexicographically, i.e. a stable ascending argsort.
  The default NumPy sort is documented as NOT stable in general (its
  quicksort scrambles tied elements on partitions longer than its
  insertion-sort cutoff), so the model over-specifies the tie order for
  large arrays.  Accordingly, no statement below asserts a tie-order
  guarantee for the program beyond the short regime: every general
  theorem except the tie-order claim itself holds for any correct
  ascending index sort (the selection is characterised only up to which
  values are maximal, permutations, lengths and membership), and the one
  tie-order statement (claim C1) is restricted to two-document corpora,
  where the NumPy fallback really is a stable insertion sort and the
  embedding is exact.  The code then reverses the argsort result and
  slices it with `[:top_n]`, whose Python semantics (including negative
  bounds) is `pyTake`.

* Python exceptions are modelled by `Except`/`Option` results:
  `notBuilt` for the guard raising `ValueError` when the matrix is
  uninitialised, `emptyVocab` for the empty-vocabulary `ValueError` of
  scikit-learn, and `indexError` for an out-of-range `self.documents[i]`.
-/

namespace RagIndex

/-- Word characters of the default scikit-learn token pattern (ASCII model
of the regex class `\w`). -/
def isWordChar (c : Char) : Bool := c.isAlphanum || c = '_'

/-- Maximal runs of word characters in a character list; the accumulator
holds the current run reversed. -/
def runsAux : List Char → List Char → List (List Char)
  | [], cur => if cur = [] then [] else [cur.reverse]
  | c :: cs, cur =>
    if isWordChar c then runsAux cs (c :: cur)
    else if cur = [] then runsAux cs [] else cur.reverse :: runsAux cs []

/-- Tokenization of `TfidfVectorizer` with default settings: lowercase,
then keep the maximal word-character runs of length at least 2 (the
default `token_pattern` matches `\b\w\w+\b`). -/
def tokenize (s : String) : List String :=
  ((runsAux (s.data.map Char.toLower) []).map fun cs => String.mk cs).filter
    fun t => 2 ≤ t.length

/-- Vocabulary of a corpus: every term seen in some document, without
duplicates (scikit-learn additionally sorts it, which no claim can
observe: dot products and magnitudes do not depend on component order). -/
def vocab (corpus : List String) : List String :=
  (corpus.map tokenize).flatten.dedup

/-- Document frequency of a term: the number of documents containing it. -/
def df (corpus : List String) (t : String) : ℕ :=
  (corpus.filter fun d => (tokenize d).contains t).length

/-- Tf-idf weight of term `t` for the text `text` under the fitted model
of `corpus`: raw count times the idf-table entry for `(N, df t)`.  The
idf table of scikit-learn (`ln((1+N)/(1+df)) + 1`, positive) is
abstracted as the argument `idf`; see the modelling notes. -/
def weight (idf : ℕ → ℕ → ℚ) (corpus : List String) (text t : String) : ℚ :=
  ((tokenize text).count t : ℚ) * idf corpus.length (df corpus t)

/-- Dot product of the tf-idf vectors of two texts over the vocabulary. -/
def dotProd (idf : ℕ → ℕ → ℚ) (corpus : List String) (a b : String) : ℚ :=
  ((vocab corpus).map fun t => weight idf corpus a t * weight idf corpus b t).sum

/-- Squared Euclidean magnitude of the tf-idf vector of a text. -/
def normSq (idf : ℕ → ℕ → ℚ) (corpus : List String) (a : String) : ℚ :=
  dotProd idf corpus a a

/-- Square of the cosine similarity produced by `cosine_similarity`: zero
whenever either vector has zero magnitude (the library rescales only
nonzero rows, so zero rows give dot product 0), and otherwise
`dot²/(|q|²·|d|²)`.  Squaring is an order- and tie-faithful encoding of
the similarity because all weights are nonnegative. -/
def simSq (idf : ℕ → ℕ → ℚ) (corpus : List String) (q d : String) : ℚ :=
  if normSq idf corpus q = 0 ∨ normSq idf corpus d = 0 then 0
  else (dotProd idf corpus q d) ^ 2 / (normSq idf corpus q * normSq idf corpus d)

/-- Similarity row `cosine_similarity(query_vec, self.tfidf_matrix).flatten()`
of `rag_index.py` line 42, in the squared representation. -/
def simsOf (idf : ℕ → ℕ → ℚ) (corpus : List String) (q : String) : List ℚ :=
  corpus.map (simSq idf corpus q)

/-- Key order of the stable ascending argsort: index `i` precedes index
`j` when its value is smaller, or the values tie and `i ≤ j`. -/
def keyOrder (xs : List ℚ) (i j : ℕ) : Prop :=
  xs.getD i 0 < xs.getD j 0 ∨ (xs.getD i 0 = xs.getD j 0 ∧ i ≤ j)

instance keyOrderDec (xs : List ℚ) : DecidableRel (keyOrder xs) := fun i j => by
  unfold keyOrder; exact inferInstance

instance keyOrderTotal (xs : List ℚ) : IsTotal ℕ (keyOrder xs) := by
  constructor
  intro i j
  rcases lt_trichotomy (xs.getD i 0) (xs.getD j 0) with h | h | h
  · exact Or.inl (Or.inl h)
  · rcases Nat.le_total i j with hij | hij
    · exact Or.inl (Or.inr ⟨h, hij⟩)
    · exact Or.inr (Or.inr ⟨h.symm, hij⟩)
  · exact Or.inr (Or.inl h)

instance keyOrderTrans (xs : List ℚ) : IsTrans ℕ (keyOrder xs) := by
  constructor
  intro i j k hij hjk
  rcases hij with h1 | ⟨h1, h1n⟩
  · rcases hjk with h2 | ⟨h2, _⟩
    · exact Or.inl (h1.trans h2)
    · exact Or.inl (h2 ▸ h1)
  · rcases hjk with h2 | ⟨h2, h2n⟩
    · exact Or.inl (h1 ▸ h2)
    · exact Or.inr ⟨h1.trans h2, h1n.trans h2n⟩

instance keyOrderAntisymm (xs : List ℚ) : IsAntisymm ℕ (keyOrder xs) := by
  constructor
  intro i j hij hji
  rcases hij with h1 | ⟨h1, h1n⟩
  · rcases hji with h2 | ⟨h2, _⟩
    · exact absurd (h1.trans h2) (lt_irrefl _)
    · exact absurd h1 (h2 ▸ lt_irrefl _)
  · rcases hji with h2 | ⟨h2, h2n⟩
    · exact absurd h2 (h1 ▸ lt_irrefl _)
    · exact Nat.le_antisymm h1n h2n

/-- Model of `similarities.argsort()` (line 43): the indices
`0, …, len-1` sorted ascending by value, ties by index.  The real NumPy
default sort is unstable in general; this stable model is exact only in
the short insertion-sort regime, so tie-order-sensitive statements below
are confined to two-document corpora and everything else is proved in a
way that holds for any correct ascending index sort (see the modelling
notes). -/
def argsort (xs : List ℚ) : List ℕ :=
  List.insertionSort (keyOrder xs) (List.range xs.length)

/-- Python list slicing `l[:n]`, including the negative-bound case
(`l[:-k]` drops the last `k` elements). -/
def pyTake (n : ℤ) (l : List α) : List α :=
  if 0 ≤ n then l.take n.toNat else l.take (l.length - n.natAbs)

/-- Values a record field can hold in the data written by `app.py`: a
string, or (for `notes`) a list of strings. -/
inductive PyVal where
  | str (s : String)
  | strList (l : List String)
deriving DecidableEq

/-- Single-quote character, used by the Python `str` of a string list. -/
def pyQuote : String := (Char.ofNat 39).toString

/-- Python `str` applied to a field value: strings pass through, and a
list of (quote- and escape-free) strings becomes its printed
representation with brackets, separating commas and quoted elements. -/
def pyStr : PyVal → String
  | .str s => s
  | .strList l =>
    "[" ++ String.intercalate ", " (l.map fun s => pyQuote ++ s ++ pyQuote) ++ "]"

/-- Raw record shape of `data/transcript.json`: the three fields read by
`setup`, each possibly absent. -/
structure RawRecord where
  transcript : Option PyVal
  summary : Option PyVal
  notes : Option PyVal
deriving DecidableEq

/-- Model of `d.get(field, "")` followed by `str(...)`. -/
def fieldStr (o : Option PyVal) : String := pyStr (o.getD (.str ""))

/-- One document as built on lines 23–26 / 29–32 of `rag_index.py`:
`" ".join([str(transcript), str(summary), str(notes)])`. -/
def combine (r : RawRecord) : String :=
  String.intercalate " " [fieldStr r.transcript, fieldStr r.summary, fieldStr r.notes]

/-- Decoded JSON accepted by `setup`: a list of records or a single one. -/
inductive JsonData where
  | list (rs : List RawRecord)
  | single (r : RawRecord)

/-- Documents derived from the decoded data, preserving input order. -/
def loadDocs : JsonData → List String
  | .list rs => rs.map combine
  | .single r => [combine r]

/-- Failure modes of the embedded operations (see the modelling notes). -/
inductive RagError where
  | notBuilt
  | emptyVocab
  | indexError
deriving DecidableEq

/-- State of a `RAGIndex` object: the `documents` attribute, and the
corpus the vectorizer/matrix pair is fitted on (`none` when
`self.tfidf_matrix is None`). -/
structure RAGIndex where
  documents : List String
  fitted : Option (List String)
deriving DecidableEq

/-- Freshly constructed object: `documents = []`, matrix `None`. -/
def RAGIndex.init : RAGIndex := { documents := [], fitted := none }

/-- Model of `setup` (lines 13–35): derive the documents, assign them to
`self.documents`, then fit.  The assignment happens before
`fit_transform` can raise, so on the empty-vocabulary failure the new
documents are already installed while the old fitted pair survives. -/
def setup (st : RAGIndex) (data : JsonData) : RAGIndex × Option RagError :=
  let docs := loadDocs data
  if vocab docs = [] then
    ({ documents := docs, fitted := st.fitted }, some .emptyVocab)
  else
    ({ documents := docs, fitted := some docs }, none)

/-- Model of lines 38–46 of `query`: the guard on the uninitialised
matrix, the ranked index selection, and the `top_docs` list
`[self.documents[i] for i in top_indices]` (an out-of-range index is a
Python `IndexError`). -/
def topDocs (idf : ℕ → ℕ → ℚ) (st : RAGIndex) (q : String) (top_n : ℤ) :
    Except RagError (List String) :=
  match st.fitted with
  | none => .error .notBuilt
  | some C =>
    match (pyTake top_n (argsort (simsOf idf C q)).reverse).mapM
        (fun i => st.documents[i]?) with
    | none => .error .indexError
    | some ds => .ok ds

/-- Model of `query` (lines 37–47): the `top_docs` selection joined by
`"\n\n".join(top_docs)` into a single string. -/
def query (idf : ℕ → ℕ → ℚ) (st : RAGIndex) (q : String) (top_n : ℤ) :
    Except RagError String :=
  (topDocs idf st q top_n).map (String.intercalate "\n\n")

/-- Model of `search` (lines 49–50): pure delegation to `query` with
`top_n=3`. -/
def search (idf : ℕ → ℕ → ℚ) (st : RAGIndex) (q : String) :
    Except RagError String :=
  query idf st q 3

/-- Model of a call `self.query(text)` that omits `top_n`, whose Python
default is `top_n=1` (line 37). -/
def queryDefault (idf : ℕ → ℕ → ℚ) (st : RAGIndex) (q : String) :
    Except RagError String :=
  query idf st q 1

/-- A state is well built when the fitted pair matches the current
documents, as after every successful `setup`. -/
def wellBuilt (st : RAGIndex) : Prop := st.fitted = some st.documents

/-- Concrete idf table used to instantiate closed statements; the
concrete runs proved below yield the same output for the real table (see
the modelling notes and `simsB_any_idf`). -/
def idf0 : ℕ → ℕ → ℚ := fun _ _ => 1

/-- Corpus of concrete scenario B of the specification. -/
def corpusB : List String := ["alpha beta", "gamma delta"]

/-- Built state holding scenario-B corpus. -/
def stB : RAGIndex := { documents := corpusB, fitted := some corpusB }

/-- Corpus with a document (index 1) whose vector is proportional to the
vector of document 0, so that both have cosine similarity 1 to it. -/
def corpusCat : List String := ["cat", "cat cat"]

/-- Built state holding the proportional-documents corpus. -/
def stCat : RAGIndex := { documents := corpusCat, fitted := some corpusCat }

/-! Properties of the stable ascending argsort. -/

theorem argsort_perm (xs : List ℚ) : (argsort xs).Perm (List.range xs.length) :=
  List.perm_insertionSort _ _

theorem argsort_sorted (xs : List ℚ) : List.Sorted (keyOrder xs) (argsort xs) :=
  List.sorted_insertionSort _ _

theorem argsort_length (xs : List ℚ) : (argsort xs).length = xs.length := by
  rw [(argsort_perm xs).length_eq, List.length_range]

theorem mem_argsort (xs : List ℚ) {i : ℕ} : i ∈ argsort xs ↔ i < xs.length := by
  rw [(argsort_perm xs).mem_iff, List.mem_range]

theorem getD_eq_of_forall {xs : List ℚ} {c : ℚ} (h : ∀ s ∈ xs, s = c) {a : ℕ}
    (ha : a < xs.length) : xs.getD a 0 = c := by
  rw [List.getD_eq_getElem?_getD, List.getElem?_eq_getElem ha]
  exact h _ (List.getElem_mem ha)

/-- On a constant value list the stable ascending argsort is the identity
permutation: ties keep the index order. -/
theorem argsort_const {xs : List ℚ} {c : ℚ} (h : ∀ s ∈ xs, s = c) :
    argsort xs = List.range xs.length := by
  apply List.eq_of_perm_of_sorted (argsort_perm xs) (argsort_sorted xs)
  refine (List.pairwise_lt_range xs.length).imp_of_mem ?_
  intro a b ha hb hab
  have ha2 : a < xs.length := List.mem_range.mp ha
  have hb2 : b < xs.length := List.mem_range.mp hb
  exact Or.inr ⟨(getD_eq_of_forall h ha2).trans (getD_eq_of_forall h hb2).symm,
    Nat.le_of_lt hab⟩

/-- First element of the reversed argsort: an index that dominates every
index in the key order, i.e. has maximal value, with the largest index
among the maximal ones. -/
theorem argsort_reverse_head_max (xs : List ℚ) (hne : xs ≠ []) :
    ∃ j t, (argsort xs).reverse = j :: t ∧ j < xs.length ∧
      ∀ i, i < xs.length → keyOrder xs i j := by
  have hlen : (argsort xs).reverse.length = xs.length := by
    rw [List.length_reverse, argsort_length]
  have hpos : 0 < (argsort xs).reverse.length := by
    rw [hlen]; exact List.length_pos.mpr hne
  obtain ⟨j, t, hjt⟩ := List.exists_cons_of_ne_nil (List.ne_nil_of_length_pos hpos)
  refine ⟨j, t, hjt, ?_, ?_⟩
  · have hj : j ∈ argsort xs := by
      rw [← List.mem_reverse, hjt]; exact List.mem_cons_self _ _
    exact (mem_argsort xs).mp hj
  · intro i hi
    have hmem : i ∈ (argsort xs).reverse := by
      rw [List.mem_reverse]; exact (mem_argsort xs).mpr hi
    rw [hjt] at hmem
    rcases List.mem_cons.mp hmem with rfl | hmem
    · exact Or.inr ⟨rfl, Nat.le_refl _⟩
    · have hrev : List.Pairwise (fun a b => keyOrder xs b a) (argsort xs).reverse := by
        rw [List.pairwise_reverse]; exact argsort_sorted xs
      rw [hjt, List.pairwise_cons] at hrev
      exact hrev.1 i hmem

/-! List plumbing: indexing, slicing and the document lookup. -/

theorem mapM_getElem (docs : List String) (l : List ℕ)
    (h : ∀ i ∈ l, i < docs.length) :
    l.mapM (fun i => docs[i]?) = some (l.map fun i => docs.getD i "") := by
  induction l with
  | nil => rfl
  | cons a l ih =>
    have ha : a < docs.length := h a (List.mem_cons_self _ _)
    rw [List.mapM_cons, List.getElem?_eq_getElem ha,
      ih (fun i hi => h i (List.mem_cons_of_mem _ hi))]
    simp [List.getD_eq_getElem?_getD, List.getElem?_eq_getElem ha]

theorem pyTake_map (n : ℤ) (l : List α) (f : α → β) :
    (pyTake n l).map f = pyTake n (l.map f) := by
  unfold pyTake
  rw [List.length_map]
  split <;> rw [List.map_take]

theorem mem_of_mem_pyTake {n : ℤ} {l : List α} {a : α} (h : a ∈ pyTake n l) :
    a ∈ l := by
  unfold pyTake at h
  split at h <;> exact List.mem_of_mem_take h

theorem pyTake_all (n : ℤ) (l : List α) (h : (l.length : ℤ) ≤ n) :
    pyTake n l = l := by
  unfold pyTake
  rw [if_pos (le_trans (Int.ofNat_nonneg _) h)]
  exact List.take_of_length_le (by exact_mod_cast Int.toNat_le_toNat h |>.trans_eq (by simp))

theorem pyTake_length_nonpos (n : ℤ) (l : List α) (h : n ≤ 0) :
    (pyTake n l).length = if n = 0 then 0 else l.length - n.natAbs := by
  unfold pyTake
  rcases lt_or_eq_of_le h with h2 | rfl
  · rw [if_neg (not_le.mpr h2), if_neg (by exact fun hc => absurd hc (by omega))]
    rw [List.length_take]
    omega
  · simp

theorem pyTake_head (n : ℤ) (hn : 1 ≤ n) (a : α) (l : List α) :
    (pyTake n (a :: l)).head? = some a := by
  unfold pyTake
  rw [if_pos (le_trans zero_le_one hn)]
  have h1 : n.toNat = (n.toNat - 1) + 1 := by omega
  rw [h1, List.take_succ_cons]
  rfl

theorem map_getD_range (l : List α) (d : α) :
    (List.range l.length).map (fun i => l.getD i d) = l := by
  induction l with
  | nil => rfl
  | cons a l ih =>
    simp only [List.length_cons, List.range_succ_eq_map, List.map_cons, List.map_map]
    simp only [Function.comp_def, List.getD_cons_succ, List.getD_cons_zero]
    rw [ih]

theorem intercalate_three (sep a b c : String) :
    String.intercalate sep [a, b, c] = a ++ sep ++ b ++ sep ++ c := by
  simp [String.intercalate, String.intercalate.go, String.append_assoc]

/-! Facts about the similarity values. -/

theorem dotProd_toFinset (idf : ℕ → ℕ → ℚ) (C : List String) (a b : String) :
    dotProd idf C a b =
      ∑ t ∈ (vocab C).toFinset, weight idf C a t * weight idf C b t := by
  have hnd : (vocab C).Nodup := by rw [vocab]; exact List.nodup_dedup _
  rw [dotProd, ← List.sum_toFinset _ hnd]

theorem normSq_nonneg (idf : ℕ → ℕ → ℚ) (C : List String) (a : String) :
    0 ≤ normSq idf C a := by
  rw [normSq, dotProd]
  apply List.sum_nonneg
  intro x hx
  simp only [List.mem_map] at hx
  obtain ⟨t, _, rfl⟩ := hx
  exact mul_self_nonneg _

/-- Cauchy–Schwarz for the tf-idf vectors: the squared dot product is at
most the product of the squared magnitudes. -/
theorem dotProd_sq_le (idf : ℕ → ℕ → ℚ) (C : List String) (a b : String) :
    (dotProd idf C a b) ^ 2 ≤ normSq idf C a * normSq idf C b := by
  rw [normSq, normSq, dotProd_toFinset, dotProd_toFinset, dotProd_toFinset]
  have ha : ∑ t ∈ (vocab C).toFinset, weight idf C a t * weight idf C a t
      = ∑ t ∈ (vocab C).toFinset, weight idf C a t ^ 2 :=
    Finset.sum_congr rfl fun t _ => by ring
  have hb : ∑ t ∈ (vocab C).toFinset, weight idf C b t * weight idf C b t
      = ∑ t ∈ (vocab C).toFinset, weight idf C b t ^ 2 :=
    Finset.sum_congr rfl fun t _ => by ring
  rw [ha, hb]
  exact Finset.sum_mul_sq_le_sq_mul_sq _ _ _

theorem simSq_nonneg (idf : ℕ → ℕ → ℚ) (C : List String) (q d : String) :
    0 ≤ simSq idf C q d := by
  unfold simSq
  split
  · exact le_refl 0
  · rename_i h
    push_neg at h
    have hq : 0 < normSq idf C q := (normSq_nonneg idf C q).lt_of_ne (Ne.symm h.1)
    have hd : 0 < normSq idf C d := (normSq_nonneg idf C d).lt_of_ne (Ne.symm h.2)
    exact div_nonneg (sq_nonneg _) (mul_pos hq hd).le

theorem simSq_le_one (idf : ℕ → ℕ → ℚ) (C : List String) (q d : String) :
    simSq idf C q d ≤ 1 := by
  unfold simSq
  split
  · norm_num
  · rename_i h
    push_neg at h
    have hq : 0 < normSq idf C q := (normSq_nonneg idf C q).lt_of_ne (Ne.symm h.1)
    have hd : 0 < normSq idf C d := (normSq_nonneg idf C d).lt_of_ne (Ne.symm h.2)
    rw [div_le_one (mul_pos hq hd)]
    exact dotProd_sq_le idf C q d

/-- Querying with a text of nonzero magnitude gives that text similarity
1 to itself: the query vector and the document vector coincide. -/
theorem simSq_self (idf : ℕ → ℕ → ℚ) (C : List String) (t : String)
    (h : normSq idf C t ≠ 0) : simSq idf C t t = 1 := by
  unfold simSq
  rw [if_neg (by tauto)]
  have hd : dotProd idf C t t = normSq idf C t := rfl
  rw [hd, sq, div_self (mul_ne_zero h h)]

theorem simSq_zero_left (idf : ℕ → ℕ → ℚ) (C : List String) (q d : String)
    (h : normSq idf C q = 0) : simSq idf C q d = 0 := by
  unfold simSq
  rw [if_pos (Or.inl h)]

theorem simSq_zero_right (idf : ℕ → ℕ → ℚ) (C : List String) (q d : String)
    (h : normSq idf C d = 0) : simSq idf C q d = 0 := by
  unfold simSq
  rw [if_pos (Or.inr h)]

theorem simsOf_length (idf : ℕ → ℕ → ℚ) (C : List String) (q : String) :
    (simsOf idf C q).length = C.length := by
  simp [simsOf]

theorem simsOf_getD (idf : ℕ → ℕ → ℚ) (C : List String) (q : String) {k : ℕ}
    (hk : k < C.length) :
    (simsOf idf C q).getD k 0 = simSq idf C q (C.getD k "") := by
  rw [simsOf, List.getD_eq_getElem?_getD, List.getElem?_map,
    List.getElem?_eq_getElem hk, List.getD_eq_getElem?_getD,
    List.getElem?_eq_getElem hk]
  rfl

/-! Central description of `topDocs` on a well built state. -/

theorem topDocs_eq (idf : ℕ → ℕ → ℚ) (st : RAGIndex) (q : String) (n : ℤ)
    (hwb : wellBuilt st) :
    topDocs idf st q n =
      .ok (pyTake n ((argsort (simsOf idf st.documents q)).reverse.map
        fun i => st.documents.getD i "")) := by
  obtain ⟨docs, fitted⟩ := st
  unfold wellBuilt at hwb
  dsimp only at hwb ⊢
  subst hwb
  unfold topDocs
  dsimp only
  have hidx : ∀ i ∈ pyTake n (argsort (simsOf idf docs q)).reverse,
      i < docs.length := by
    intro i hi
    have h1 : i ∈ argsort (simsOf idf docs q) :=
      List.mem_reverse.mp (mem_of_mem_pyTake hi)
    have h2 := (mem_argsort _).mp h1
    rwa [simsOf_length] at h2
  rw [mapM_getElem _ _ hidx, pyTake_map]

/-! Evaluation lemmas for the concrete corpora. -/

theorem vocabB : vocab ["alpha beta", "gamma delta"] =
    ["alpha", "beta", "gamma", "delta"] := rfl

theorem tok_omega : tokenize "omega" = ["omega"] := rfl

theorem tok_alpha : tokenize "alpha" = ["alpha"] := rfl

theorem tok_ab : tokenize "alpha beta" = ["alpha", "beta"] := rfl

theorem tok_gd : tokenize "gamma delta" = ["gamma", "delta"] := rfl

/-- Query "omega" has no in-vocabulary term for scenario-B corpus, so its
similarity row is `[0, 0]` for every idf table: the concrete runs on this
corpus are independent of the abstracted table. -/
theorem simsB_any_idf (f : ℕ → ℕ → ℚ) : simsOf f corpusB "omega" = [0, 0] := by
  have hq : normSq f ["alpha beta", "gamma delta"] "omega" = 0 := by
    rw [normSq, dotProd, vocabB]
    simp +decide [weight, tok_omega]
  simp [simsOf, corpusB, simSq_zero_left, hq]

theorem simsB_alpha : simsOf idf0 corpusB "alpha" = [1/2, 0] := by
  norm_num +decide [simsOf, corpusB, simSq, normSq, dotProd, weight, vocabB, idf0,
    df, tok_alpha, tok_ab, tok_gd, List.count_cons, List.count_nil]

theorem normSqB_ab : normSq idf0 ["alpha beta", "gamma delta"] "alpha beta" = 2 := by
  norm_num +decide [normSq, dotProd, weight, vocabB, idf0, tok_ab, tok_gd,
    List.count_cons, List.count_nil]

theorem vocabCat : vocab ["cat", "cat cat"] = ["cat"] := rfl

theorem tok_cat : tokenize "cat" = ["cat"] := rfl

theorem tok_catcat : tokenize "cat cat" = ["cat", "cat"] := rfl

/-- Both documents of `corpusCat` have cosine similarity exactly 1 to the
query "cat": the vector of "cat cat" is proportional to the query vector. -/
theorem simsCat : simsOf idf0 corpusCat "cat" = [1, 1] := by
  norm_num +decide [simsOf, corpusCat, simSq, normSq, dotProd, weight, vocabCat,
    idf0, df, tok_cat, tok_catcat, List.count_cons, List.count_nil]

theorem argsort_00 : argsort [(0:ℚ), 0] = [0, 1] := by
  norm_num [argsort, List.insertionSort, List.orderedInsert, keyOrder]

theorem argsort_half0 : argsort [(1:ℚ)/2, 0] = [1, 0] := by
  norm_num [argsort, List.insertionSort, List.orderedInsert, keyOrder]

theorem argsort_11 : argsort [(1:ℚ), 1] = [0, 1] := by
  norm_num [argsort, List.insertionSort, List.orderedInsert, keyOrder]

/-! Claim C1. -/

/-- Claim C1, counterexample: for the built scenario-B index with corpus
`["alpha beta", "gamma delta"]` and query "omega" with `top_n = 2`, all
similarities are equal (the row is `[0, 0]`), yet the result lists the
documents in reverse corpus order, `"gamma delta"` then `"alpha beta"`,
refuting the claimed stable descending sort with original-order ties and
the claimed scenario-B output. -/
theorem C1_counterexample :
    simsOf idf0 corpusB "omega" = [0, 0] ∧
    query idf0 stB "omega" 2 = .ok ("gamma delta" ++ "\n\n" ++ "alpha beta") := by
  refine ⟨simsB_any_idf idf0, ?_⟩
  rw [query, topDocs_eq idf0 stB "omega" 2 rfl]
  rw [show stB.documents = corpusB from rfl, simsB_any_idf, argsort_00]
  rfl

/-- Claim C1 (amended): documents with equal similarity do not, in
general, retain their original Corpus order.  On a built TWO-document
index whose similarities tie — the regime of the concrete scenario,
where the NumPy argsort is its stable insertion-sort fallback and the
embedding is exact — the result lists the documents in reverse corpus
order; in particular scenario B returns `["gamma delta", "alpha beta"]`.
For larger corpora the default NumPy sort is not stable and the program
gives no tie-order guarantee at all, so none is asserted. -/
theorem C1_theorem (idf : ℕ → ℕ → ℚ) (st : RAGIndex) (q : String)
    (n : ℤ) (c : ℚ) (hwb : wellBuilt st) (h2 : st.documents.length = 2)
    (hc : ∀ s ∈ simsOf idf st.documents q, s = c) :
    topDocs idf st q n = .ok (pyTake n st.documents.reverse) := by
  rw [topDocs_eq idf st q n hwb, argsort_const hc, simsOf_length,
    List.map_reverse, map_getD_range]

/-- Witness for C1 at scenario B: the hypotheses hold for the built
two-document scenario-B state and the all-tied query "omega", and the
selection is the reversed corpus. -/
theorem C1_witness :
    wellBuilt stB ∧ stB.documents.length = 2 ∧
    (∀ s ∈ simsOf idf0 stB.documents "omega", s = (0:ℚ)) ∧
    topDocs idf0 stB "omega" 2 = .ok ["gamma delta", "alpha beta"] := by
  have hc : ∀ s ∈ simsOf idf0 stB.documents "omega", s = (0:ℚ) := by
    rw [show stB.documents = corpusB from rfl, simsB_any_idf]
    simp
  refine ⟨rfl, rfl, hc, ?_⟩
  rw [C1_theorem idf0 stB "omega" 2 0 rfl rfl hc]
  rfl

/-! Claim C2. -/

/-- Claim C2, counterexample: on a built index, `query` with
`top_n = 0 ≤ 0` does not fail with an InvalidTopN error; it silently
returns a result (the empty string). -/
theorem C2_counterexample : query idf0 stB "alpha" 0 = .ok "" := rfl

/-- Claim C2 (amended): on a built index, `query` with `top_n ≤ 0` does
not fail: the Python slice `[:top_n]` selects 0 documents when
`top_n = 0` and all but the last `|top_n|` ranked documents when
`top_n < 0`, and a result is returned. -/
theorem C2_theorem (idf : ℕ → ℕ → ℚ) (st : RAGIndex) (q : String) (n : ℤ)
    (hwb : wellBuilt st) (hn : n ≤ 0) :
    ∃ ds, topDocs idf st q n = .ok ds ∧
      ds.length = if n = 0 then 0 else st.documents.length - n.natAbs := by
  refine ⟨_, topDocs_eq idf st q n hwb, ?_⟩
  rw [pyTake_length_nonpos _ _ hn, List.length_map, List.length_reverse,
    argsort_length, simsOf_length]

/-- Witness for C2: the built scenario-B state with `top_n = 0` selects
zero documents and succeeds. -/
theorem C2_witness :
    wellBuilt stB ∧ ((0:ℤ) ≤ 0) ∧
    ∃ ds, topDocs idf0 stB "alpha" 0 = .ok ds ∧
      ds.length = if (0:ℤ) = 0 then 0 else stB.documents.length - (0:ℤ).natAbs :=
  ⟨rfl, le_refl 0, C2_theorem idf0 stB "alpha" 0 rfl (le_refl 0)⟩

/-! Claim C3. -/

/-- Claim C3, counterexample: a successful `query` does not return a
sequence of document strings: on the built scenario-B index with query
"alpha" and `top_n = 2` it returns the single string concatenating both
ranked documents around a blank line, which differs from every document
of the corpus. -/
theorem C3_counterexample :
    query idf0 stB "alpha" 2 = .ok ("alpha beta" ++ "\n\n" ++ "gamma delta") ∧
    (∀ d ∈ stB.documents, "alpha beta" ++ "\n\n" ++ "gamma delta" ≠ d) := by
  refine ⟨?_, by decide⟩
  rw [query, topDocs_eq idf0 stB "alpha" 2 rfl]
  rw [show stB.documents = corpusB from rfl, simsB_alpha, argsort_half0]
  rfl

/-- Claim C3 (amended): on a built index a successful `query` returns one
string: the ranked selection `top_docs` — whose members are each the full
text of a corpus document — joined with `"\n\n"` separators, not a
sequence. -/
theorem C3_theorem (idf : ℕ → ℕ → ℚ) (st : RAGIndex) (q : String) (n : ℤ)
    (hwb : wellBuilt st) :
    ∃ ds, topDocs idf st q n = .ok ds ∧
      query idf st q n = .ok (String.intercalate "\n\n" ds) ∧
      ∀ d ∈ ds, d ∈ st.documents := by
  refine ⟨_, topDocs_eq idf st q n hwb, ?_, ?_⟩
  · rw [query, topDocs_eq idf st q n hwb]
    rfl
  · intro d hd
    have hd2 := mem_of_mem_pyTake hd
    simp only [List.mem_map, List.mem_reverse] at hd2
    obtain ⟨i, hi, rfl⟩ := hd2
    have hi2 : i < st.documents.length := by
      have h3 := (mem_argsort _).mp hi
      rwa [simsOf_length] at h3
    rw [List.getD_eq_getElem?_getD, List.getElem?_eq_getElem hi2, Option.getD_some]
    exact List.getElem_mem hi2

/-- Witness for C3 at the built scenario-B state. -/
theorem C3_witness :
    wellBuilt stB ∧
    ∃ ds, topDocs idf0 stB "omega" 1 = .ok ds ∧
      query idf0 stB "omega" 1 = .ok (String.intercalate "\n\n" ds) ∧
      ∀ d ∈ ds, d ∈ stB.documents :=
  ⟨rfl, C3_theorem idf0 stB "omega" 1 rfl⟩

/-! Claim C4. -/

/-- Claim C4, counterexample: building on an empty record list from the
built scenario-B state fails, but does not leave the prior Built state
unchanged: the resulting state differs from the prior one (its corpus is
emptied while the fitted matrix survives), and the mixed state is
observable — a subsequent query reaches an index error instead of using
the prior state. -/
theorem C4_counterexample :
    (setup stB (.list [])).1 ≠ stB ∧
    (setup stB (.list [])).2 = some .emptyVocab ∧
    query idf0 (setup stB (.list [])).1 "omega" 1 = .error .indexError := by
  refine ⟨by decide, rfl, ?_⟩
  show query idf0 { documents := [], fitted := some corpusB } "omega" 1 =
    .error .indexError
  unfold query topDocs
  dsimp only
  rw [simsB_any_idf, argsort_00]
  rfl

/-- Claim C4 (amended): building on a corpus of zero documents fails (the
vectorizer raises on the empty vocabulary) and the previously fitted
model survives, but the prior Built state is not left entirely unchanged:
`self.documents` is overwritten with the empty list before the failure,
leaving a half-built mixture of old fitted model and new empty corpus
observable to subsequent queries. -/
theorem C4_theorem (st : RAGIndex) :
    setup st (.list []) = ({ documents := [], fitted := st.fitted },
      some .emptyVocab) := rfl

/-! Claim C5. -/

/-- Claim C5: on a built index with corpus of size N, `query` with
`top_n > N` (in fact with any `top_n ≥ N`) succeeds and selects exactly N
documents, a permutation of the corpus, so each corpus member appears
exactly once — no error and no under-return. -/
theorem C5_theorem (idf : ℕ → ℕ → ℚ) (st : RAGIndex) (q : String) (n : ℤ)
    (hwb : wellBuilt st) (hn : (st.documents.length : ℤ) ≤ n) :
    ∃ ds, topDocs idf st q n = .ok ds ∧ ds.length = st.documents.length ∧
      ds.Perm st.documents := by
  have hperm : ((argsort (simsOf idf st.documents q)).reverse.map
      fun i => st.documents.getD i "").Perm st.documents := by
    have h1 : (argsort (simsOf idf st.documents q)).reverse.Perm
        (List.range st.documents.length) := by
      refine (List.reverse_perm _).trans ?_
      rw [← simsOf_length idf st.documents q]
      exact argsort_perm _
    have h2 := h1.map (fun i => st.documents.getD i "")
    rwa [map_getD_range] at h2
  have hlen : ((argsort (simsOf idf st.documents q)).reverse.map
      fun i => st.documents.getD i "").length = st.documents.length :=
    hperm.length_eq
  refine ⟨_, topDocs_eq idf st q n hwb, ?_, ?_⟩
  · rw [pyTake_all _ _ (by rw [hlen]; exact hn), hlen]
  · rw [pyTake_all _ _ (by rw [hlen]; exact hn)]
    exact hperm

/-- Witness for C5: the built scenario-B index (N = 2) queried with
`top_n = 5` returns both documents, each exactly once. -/
theorem C5_witness :
    wellBuilt stB ∧ ((stB.documents.length : ℤ) ≤ 5) ∧
    ∃ ds, topDocs idf0 stB "alpha" 5 = .ok ds ∧ ds.length = stB.documents.length ∧
      ds.Perm stB.documents :=
  ⟨rfl, by decide, C5_theorem idf0 stB "alpha" 5 rfl (by decide)⟩

/-! Claim C6. -/

/-- Claim C6, counterexample: a record whose notes field is the string
list `["a", "b"]` is loaded as the document embedding the printed Python
representation of the list — brackets, separating comma and quotes — not
as the document obtained by joining the list elements into one string. -/
theorem C6_counterexample :
    combine ⟨some (.str "t"), some (.str "s"), some (.strList ["a", "b"])⟩ =
      "t s [" ++ pyQuote ++ "a" ++ pyQuote ++ ", " ++ pyQuote ++ "b" ++ pyQuote ++ "]" ∧
    combine ⟨some (.str "t"), some (.str "s"), some (.strList ["a", "b"])⟩ ≠
      "t s a b" ∧
    combine ⟨some (.str "t"), some (.str "s"), some (.strList ["a", "b"])⟩ ≠
      "t s ab" := by
  refine ⟨by decide, by decide, by decide⟩

/-- Claim C6 (amended): each loaded record becomes exactly one document,
in input order, equal to the transcript, summary and notes fields joined
with single spaces, where an absent field contributes the empty string;
but a notes field given as a sequence of strings is embedded through the
Python `str` of the list — its printed representation — not by joining
its elements into one string. -/
theorem C6_theorem (rs : List RawRecord) (t s : String) (l : List String) :
    loadDocs (.list rs) = rs.map combine ∧
    combine ⟨some (.str t), some (.str s), some (.strList l)⟩ =
      t ++ " " ++ s ++ " " ++ pyStr (.strList l) ∧
    combine ⟨none, none, none⟩ = "  " := by
  refine ⟨rfl, ?_, rfl⟩
  rw [combine]
  show String.intercalate " " [t, s, pyStr (.strList l)] = _
  rw [intercalate_three]

/-! Claim C7. -/

/-- Claim C7: on a built index, a query whose vector has zero magnitude
yields similarity 0 against every document, a document vector of zero
magnitude yields similarity 0 for that comparison, and `query` still
returns a result — the similarity computation never reaches a
division-by-zero fault (the zero-magnitude guard of `cosine_similarity`
is the first branch of `simSq`). -/
theorem C7_theorem (idf : ℕ → ℕ → ℚ) (st : RAGIndex) (q : String) (n : ℤ)
    (hwb : wellBuilt st) :
    (normSq idf st.documents q = 0 → ∀ s ∈ simsOf idf st.documents q, s = 0) ∧
    (∀ d : String, normSq idf st.documents d = 0 → simSq idf st.documents q d = 0) ∧
    ∃ out, query idf st q n = .ok out := by
  refine ⟨?_, fun d hd => simSq_zero_right idf st.documents q d hd, ?_⟩
  · intro hq s hs
    rw [simsOf] at hs
    obtain ⟨d, _, rfl⟩ := List.mem_map.mp hs
    exact simSq_zero_left idf st.documents q d hq
  · exact ⟨_, by rw [query, topDocs_eq idf st q n hwb]; rfl⟩

/-- Witness for C7: the built scenario-B state and the out-of-vocabulary
query "omega". -/
theorem C7_witness :
    wellBuilt stB ∧
    ((normSq idf0 stB.documents "omega" = 0 →
        ∀ s ∈ simsOf idf0 stB.documents "omega", s = 0) ∧
      (∀ d : String, normSq idf0 stB.documents d = 0 →
        simSq idf0 stB.documents "omega" d = 0) ∧
      ∃ out, query idf0 stB "omega" 2 = .ok out) :=
  ⟨rfl, C7_theorem idf0 stB "omega" 2 rfl⟩

/-! Claim C8. -/

/-- Claim C8, counterexample: in the built corpus `["cat", "cat cat"]`
the document `d = "cat"` at index 0, queried with its own full text and
`top_n = 1`, is not returned at position 0: the result is
`["cat cat"]`, because "cat cat" also has similarity 1 and the tie is
broken towards the later corpus position, not the original order. -/
theorem C8_counterexample :
    stCat.documents.getD 0 "" = "cat" ∧
    topDocs idf0 stCat "cat" 1 = .ok ["cat cat"] ∧
    "cat cat" ≠ "cat" := by
  refine ⟨rfl, ?_, by decide⟩
  rw [topDocs_eq idf0 stCat "cat" 1 rfl]
  rw [show stCat.documents = corpusCat from rfl, simsCat, argsort_11]
  rfl

/-- Claim C8 (amended): on a built index, querying with the full text of
document k (of nonzero vector) and `top_n ≥ 1` puts at position 0 a
document of maximal similarity, namely similarity 1, which document k
itself attains; document k is the one at position 0 whenever every other
document has similarity strictly below 1 — ties are broken towards the
later corpus position, not the original order. -/
theorem C8_theorem (idf : ℕ → ℕ → ℚ) (st : RAGIndex) (k : ℕ) (n : ℤ)
    (hwb : wellBuilt st) (hk : k < st.documents.length)
    (hnz : normSq idf st.documents (st.documents.getD k "") ≠ 0) (hn : 1 ≤ n) :
    ∃ ds j, topDocs idf st (st.documents.getD k "") n = .ok ds ∧
      j < st.documents.length ∧
      ds.head? = some (st.documents.getD j "") ∧
      (simsOf idf st.documents (st.documents.getD k "")).getD j 0 = 1 ∧
      ((∀ i, i < st.documents.length → i ≠ k →
          (simsOf idf st.documents (st.documents.getD k "")).getD i 0 < 1) →
        ds.head? = some (st.documents.getD k "")) := by
  set q := st.documents.getD k "" with hqdef
  set sims := simsOf idf st.documents q with hsims
  have hlen : sims.length = st.documents.length := simsOf_length idf st.documents q
  have hne : sims ≠ [] := by
    intro hnil
    rw [hnil] at hlen
    simp at hlen
    omega
  obtain ⟨j, t, hjt, hj, hmax⟩ := argsort_reverse_head_max sims hne
  rw [hlen] at hj
  have hk1 : sims.getD k 0 = 1 := by
    rw [hsims, simsOf_getD idf st.documents q hk, ← hqdef]
    exact simSq_self idf st.documents q hnz
  have hj1 : sims.getD j 0 = 1 := by
    have h1 : keyOrder sims k j := hmax k (by rw [hlen]; exact hk)
    have hle : sims.getD k 0 ≤ sims.getD j 0 := by
      rcases h1 with h | ⟨h, _⟩
      · exact h.le
      · exact h.le
    have hub : sims.getD j 0 ≤ 1 := by
      rw [hsims, simsOf_getD idf st.documents q hj]
      exact simSq_le_one idf st.documents q _
    rw [hk1] at hle
    exact le_antisymm hub hle
  have hhead : (pyTake n ((argsort sims).reverse.map
      fun i => st.documents.getD i "")).head? = some (st.documents.getD j "") := by
    rw [hjt, List.map_cons]
    exact pyTake_head n hn _ _
  refine ⟨_, j, topDocs_eq idf st q n hwb, hj, hhead, hj1, ?_⟩
  intro hu
  have hjk : j = k := by
    by_contra hne2
    exact absurd hj1 (ne_of_lt (hu j hj hne2))
  rw [hjk] at hhead
  exact hhead

/-- Witness for C8: the built scenario-B state, document 0 =
"alpha beta" (vector magnitude 2), `top_n = 1`; here the similarity of
the other document is 0 < 1, so document 0 itself is at position 0. -/
theorem C8_witness :
    wellBuilt stB ∧ (0 < stB.documents.length) ∧
    normSq idf0 stB.documents (stB.documents.getD 0 "") ≠ 0 ∧ ((1:ℤ) ≤ 1) ∧
    ∃ ds j, topDocs idf0 stB (stB.documents.getD 0 "") 1 = .ok ds ∧
      j < stB.documents.length ∧
      ds.head? = some (stB.documents.getD j "") ∧
      (simsOf idf0 stB.documents (stB.documents.getD 0 "")).getD j 0 = 1 ∧
      ((∀ i, i < stB.documents.length → i ≠ 0 →
          (simsOf idf0 stB.documents (stB.documents.getD 0 "")).getD i 0 < 1) →
        ds.head? = some (stB.documents.getD 0 "")) := by
  have hnz : normSq idf0 stB.documents (stB.documents.getD 0 "") ≠ 0 := by
    rw [show stB.documents = ["alpha beta", "gamma delta"] from rfl,
      show (["alpha beta", "gamma delta"].getD 0 "") = "alpha beta" from rfl,
      normSqB_ab]
    norm_num
  exact ⟨rfl, by decide, hnz, le_refl 1,
    C8_theorem idf0 stB 0 1 rfl (by decide) hnz (le_refl 1)⟩

/-! Claim C9. -/

/-- Claim C9: calling `query` on a state whose matrix was never fitted
(no successful build) fails with the not-built error — the guard of line
38 — rather than returning a result. -/
theorem C9_theorem (idf : ℕ → ℕ → ℚ) (st : RAGIndex) (q : String) (n : ℤ)
    (h : st.fitted = none) : query idf st q n = .error .notBuilt := by
  unfold query topDocs
  rw [h]
  rfl

/-- Witness for C9: the freshly constructed object rejects a query. -/
theorem C9_witness :
    RAGIndex.init.fitted = none ∧
    query idf0 RAGIndex.init "anything" 1 = .error .notBuilt :=
  ⟨rfl, C9_theorem idf0 RAGIndex.init "anything" 1 rfl⟩

/-! Claim C10. -/

/-- Claim C10: `search` is pure delegation — it returns exactly
`query(text, top_n=3)` on every state — and a `query` call that omits
`top_n` behaves as `top_n = 1`. -/
theorem C10_theorem (idf : ℕ → ℕ → ℚ) (st : RAGIndex) (q : String) :
    search idf st q = query idf st q 3 ∧
    queryDefault idf st q = query idf st q 1 :=
  ⟨rfl, rfl⟩

end RagIndex
